import Mathlib

/-!
Verification development for the IPO-Analyzer scraping and scoring pipeline.

The TypeScript sources are embedded shallowly: cheerio tables become lists of
rows of cells, the regular-expression manipulations of `scraper.ts` become
executable functions on `List Char`, nullable values become `Option`, and the
orchestrator's fallible fetches become `Except Unit Page` inputs.  Wall-clock
dependence (`determineStatus` reads the current date) is abstracted by
passing the status classifier as a function parameter, and `Math.random`
draws are abstracted as explicit parameters of the functions that consume
them.  JavaScript numbers that only ever hold integers are modelled as
`Int`/`Nat`; scores are modelled as `Rat`.
-/

namespace IpoSpec

/-! ## Character and string helpers -/

/-- ASCII whitespace, the fragment of the JS `\s` class relevant here. -/
def isWs (c : Char) : Bool := c.isWhitespace

/-- `s.trim()` on the character list: drop whitespace from both ends.
(The core `String.trim` works on byte positions and is replaced by this
kernel-reducible equivalent.) -/
def trimList (cs : List Char) : List Char :=
  ((cs.dropWhile isWs).reverse.dropWhile isWs).reverse

def jsTrim (s : String) : String := String.mk (trimList s.data)

/-- `s.toLowerCase()` character by character. -/
def lowerStr (s : String) : String := String.mk (s.data.map Char.toLower)

/-- Numeric value of a list of decimal digit characters, as `parseInt` reads a
digit-only match. -/
def natOfDigits (ds : List Char) : Nat :=
  ds.foldl (fun a c => 10 * a + (c.toNat - 48)) 0

/-- Does the character list `sub` occur as a contiguous segment of `l`?
Models `String.prototype.includes`. -/
def containsSeg (l sub : List Char) : Bool :=
  match l with
  | [] => sub.isEmpty
  | _ :: rest => sub.isPrefixOf l || containsSeg rest sub

/-- `hay.toLowerCase().includes(needle)` for an already-lowercase `needle`. -/
def containsCI (hay needle : String) : Bool :=
  containsSeg (lowerStr hay).data needle.data

/-- `hay.includes(needle)` (case-sensitive). -/
def containsSub (hay needle : String) : Bool :=
  containsSeg hay.data needle.data

/-- JS `a || b` on strings: the empty string is falsy. -/
def jsOr (a b : String) : String := if a = "" then b else a

/-- Split a character list at every separator character (JS
`String.prototype.split` with a single-character-class regex): empty segments
between adjacent separators and at the ends are kept. -/
def splitSegs (p : Char → Bool) : List Char → List Char → List (List Char)
  | [], cur => [cur.reverse]
  | c :: rest, cur =>
    if p c then cur.reverse :: splitSegs p rest []
    else splitSegs p rest (c :: cur)

/-- `s.split(regex)` for a character-class regex given by the predicate `p`. -/
def jsSplit (p : Char → Bool) (s : String) : List String :=
  (splitSegs p s.data []).map String.mk

/-- Collapse every maximal whitespace run to a single space:
`s.replace(/\s+/g, " ")`.  The `Bool` flag records whether the previous
character was part of a whitespace run. -/
def collapseGo : Bool → List Char → List Char
  | _, [] => []
  | inRun, c :: rest =>
    if isWs c then
      if inRun then collapseGo true rest else ' ' :: collapseGo true rest
    else c :: collapseGo false rest

def collapseWs (s : String) : String := String.mk (collapseGo false s.data)

/-! ## A generic left-to-right global regex replacement

`replaceGo m fuel cs` scans `cs` from the left; wherever the matcher `m`
matches (returning the remainder after the matched segment) the match is
deleted and scanning resumes after it, exactly like `String.prototype.replace`
with a `g`-flagged regex and an empty replacement.  The fuel argument makes
the recursion structural; `replaceGo_congr` shows any fuel of at least
`cs.length` gives the same result, so `replaceAll`'s choice of fuel is
semantically irrelevant. -/

def replaceGo (m : List Char → Option (List Char)) : Nat → List Char → List Char
  | 0, cs => cs
  | Nat.succ _, [] => []
  | Nat.succ f, c :: rest =>
    match m (c :: rest) with
    | some r => replaceGo m f r
    | none => c :: replaceGo m f rest

def replaceAll (m : List Char → Option (List Char)) (cs : List Char) : List Char :=
  replaceGo m cs.length cs

theorem replaceGo_nil (m : List Char → Option (List Char)) (f : Nat) :
    replaceGo m f [] = [] := by
  cases f <;> rfl

theorem replaceGo_congr (m : List Char → Option (List Char))
    (hm : ∀ cs r, m cs = some r → r.length < cs.length) :
    ∀ f g cs, cs.length ≤ f → cs.length ≤ g → replaceGo m f cs = replaceGo m g cs := by
  intro f
  induction f with
  | zero =>
    intro g cs hf _
    have : cs = [] := List.length_eq_zero.mp (Nat.le_zero.mp hf)
    subst this
    rw [replaceGo_nil, replaceGo_nil]
  | succ f ih =>
    intro g cs hf hg
    cases cs with
    | nil => rw [replaceGo_nil, replaceGo_nil]
    | cons c rest =>
      cases g with
      | zero => exact absurd hg (by simp)
      | succ g =>
        simp only [replaceGo]
        cases hmc : m (c :: rest) with
        | some r =>
          have hr := hm _ _ hmc
          have hr1 : r.length ≤ f := by
            have := Nat.lt_of_lt_of_le hr hf
            omega
          have hr2 : r.length ≤ g := by
            have := Nat.lt_of_lt_of_le hr hg
            omega
          exact ih g r hr1 hr2
        | none =>
          have h1 : rest.length ≤ f := by simpa using Nat.succ_le_succ_iff.mp hf
          have h2 : rest.length ≤ g := by simpa using Nat.succ_le_succ_iff.mp hg
          rw [ih g rest h1 h2]

/-! ## Date Normalizer (`parseDate` in scraper.ts)

`parseDate` first rejects the explicit unknown markers, then tries the
pattern `/(\d{1,2})\s*([a-zA-Z]+)\s*,?\s*(\d{4})/` on the
whitespace-collapsed input, consulting a fixed month-name table; failing
that, it returns the whole cleaned string whenever the unanchored pattern
`/(\d{4})-(\d{2})-(\d{2})/` occurs anywhere inside it, and `null` otherwise. -/

/-- Month-name table of `parseDate`, keys already lowercased. -/
def monthLookup : String → Option String
  | "jan" => some "01" | "january" => some "01"
  | "feb" => some "02" | "february" => some "02"
  | "mar" => some "03" | "march" => some "03"
  | "apr" => some "04" | "april" => some "04"
  | "may" => some "05"
  | "jun" => some "06" | "june" => some "06"
  | "jul" => some "07" | "july" => some "07"
  | "aug" => some "08" | "august" => some "08"
  | "sep" => some "09" | "sept" => some "09" | "september" => some "09"
  | "oct" => some "10" | "october" => some "10"
  | "nov" => some "11" | "november" => some "11"
  | "dec" => some "12" | "december" => some "12"
  | _ => none

/-- The part of the day-month-year pattern after the day digits:
`\s*([a-zA-Z]+)\s*,?\s*(\d{4})`.  Returns the letter group and year digits. -/
def dmyTail (cs : List Char) : Option (List Char × List Char) :=
  let cs1 := cs.dropWhile isWs
  let letters := cs1.takeWhile Char.isAlpha
  if letters.isEmpty then none
  else
    let cs2 := (cs1.dropWhile Char.isAlpha).dropWhile isWs
    let cs3 := match cs2 with
      | ',' :: r => r.dropWhile isWs
      | _ => cs2
    let year := cs3.take 4
    if year.length = 4 && year.all Char.isDigit then some (letters, year) else none

/-- Match `(\d{1,2})\s*([a-zA-Z]+)\s*,?\s*(\d{4})` anchored at the head:
the greedy two-digit day is tried first, with backtracking to one digit. -/
def dmyAt : List Char → Option (List Char × List Char × List Char)
  | c1 :: c2 :: rest =>
    if c1.isDigit then
      if c2.isDigit then
        match dmyTail rest with
        | some (m, y) => some ([c1, c2], m, y)
        | none =>
          match dmyTail (c2 :: rest) with
          | some (m, y) => some ([c1], m, y)
          | none => none
      else
        match dmyTail (c2 :: rest) with
        | some (m, y) => some ([c1], m, y)
        | none => none
    else none
  | _ => none

/-- Leftmost match of the day-month-year pattern. -/
def dmyFirst : List Char → Option (List Char × List Char × List Char)
  | [] => none
  | c :: rest =>
    match dmyAt (c :: rest) with
    | some r => some r
    | none => dmyFirst rest

/-- Does `\d{4}-\d{2}-\d{2}` match at the head of the list? -/
def isoAt : List Char → Bool
  | a :: b :: c :: d :: h1 :: e :: f :: h2 :: g :: i :: _ =>
    a.isDigit && b.isDigit && c.isDigit && d.isDigit && h1 = '-' &&
    e.isDigit && f.isDigit && h2 = '-' && g.isDigit && i.isDigit
  | _ => false

/-- Does `\d{4}-\d{2}-\d{2}` occur anywhere in the list (unanchored)? -/
def hasIso : List Char → Bool
  | [] => false
  | c :: rest => isoAt (c :: rest) || hasIso rest

/-- `match[1].padStart(2, "0")` for the one- or two-digit day group. -/
def padDay (d : List Char) : String :=
  if d.length = 1 then String.mk ('0' :: d) else String.mk d

/-- `parseDate` from scraper.ts.  Total: absence is `none`, never an error. -/
def parseDate (dateStr : String) : Option String :=
  if dateStr = "" || lowerStr dateStr = "tba" || dateStr = "-" then none
  else
    let cleaned := collapseWs (jsTrim dateStr)
    match dmyFirst cleaned.data with
    | some (d, mw, y) =>
      match monthLookup (lowerStr (String.mk mw)) with
      | some mm => some (String.mk y ++ "-" ++ mm ++ "-" ++ padDay d)
      | none => if hasIso cleaned.data then some cleaned else none
    | none => if hasIso cleaned.data then some cleaned else none

/-! ## Symbol derivation and company-name cleanup

The symbol regex `/\s+(Ltd|Limited|…)\.?/gi` is a global, case-insensitive
replace.  The alternation contains only letter words, so the greedy `\s+`
never benefits from backtracking, and the alternatives are tried in their
written order at each position. -/

/-- Case-insensitive anchored match of a word, returning the remainder. -/
def matchCI : List Char → List Char → Option (List Char)
  | [], cs => some cs
  | _ :: _, [] => none
  | w :: ws, c :: cs =>
    if w.toLower = c.toLower then matchCI ws cs else none

/-- First alternative (in written order) matching at the head. -/
def matchAnyWord : List String → List Char → Option (List Char)
  | [], _ => none
  | w :: ws, cs =>
    match matchCI w.data cs with
    | some r => some r
    | none => matchAnyWord ws cs

/-- Consume the optional trailing dot of `\.?`. -/
def eatDot : List Char → List Char
  | '.' :: r => r
  | cs => cs

/-- Anchored match of `\s+(word1|word2|…)\.?`. -/
def suffixMatch (words : List String) : List Char → Option (List Char)
  | [] => none
  | c :: rest =>
    if isWs c then
      match matchAnyWord words (rest.dropWhile isWs) with
      | some r => some (eatDot r)
      | none => none
    else none

/-- Suffix words of the primary (dashboard) template's symbol regex. -/
def dashWords : List String :=
  ["Ltd", "Limited", "India", "Private", "Pvt", "Technologies", "Tech",
   "Industries", "Infra"]

/-- Suffix words of the fallback (list page) template's symbol regex. -/
def listWords : List String :=
  ["Ltd", "Limited", "India", "Private", "Pvt", "Technologies", "Tech"]

/-- Suffix words of the GMP extractor's symbol regex (also strips `IPO`). -/
def gmpWords : List String :=
  ["Ltd", "Limited", "IPO", "India", "Private", "Pvt", "Technologies", "Tech"]

/-- Symbol derivation: strip the suffix words, drop all non-alphanumerics,
uppercase, and truncate to 12 characters. -/
def deriveSymbol (words : List String) (name : String) : String :=
  String.mk
    ((((replaceAll (suffixMatch words) name.data).filter
        Char.isAlphanum).map Char.toUpper).take 12)

/-- `companyText.replace(/\s+IPO$/i, "")`: drop a trailing `IPO` together
with all whitespace separating it from the rest. -/
def stripIpoTail (cs : List Char) : List Char :=
  match cs.reverse with
  | o :: p :: i :: c :: rest =>
    if o.toLower = 'o' && p.toLower = 'p' && i.toLower = 'i' && isWs c then
      ((c :: rest).dropWhile isWs).reverse
    else cs
  | _ => cs

/-- Find the first `)` (the lazy `.*?` of `/\s+\(.*?\)/` stops there);
`.` does not cross line breaks. -/
def findClose : List Char → Option (List Char)
  | [] => none
  | ')' :: r => some r
  | '\n' :: _ => none
  | '\r' :: _ => none
  | _ :: r => findClose r

/-- Anchored match of `\s+\(.*?\)`. -/
def parenMatch : List Char → Option (List Char)
  | [] => none
  | c :: rest =>
    if isWs c then
      match rest.dropWhile isWs with
      | '(' :: r => findClose r
      | _ => none
    else none

/-- Dashboard-template company-name cleanup:
`text.replace(/\s+IPO$/i, "").replace(/\s+\(.*?\)/g, "").trim()`. -/
def cleanDashName (s : String) : String :=
  jsTrim (String.mk (replaceAll parenMatch (stripIpoTail s.data)))

/-- Fallback-template company-name cleanup: `text.replace(/\s+IPO$/i, "").trim()`. -/
def cleanListName (s : String) : String :=
  jsTrim (String.mk (stripIpoTail s.data))

/-! ## HTML table model

A cheerio document is modelled as the list of its tables, a table as the
list of its `tr` rows, and a row as the list of its `td` cells; a cell
carries its text content and the `href` of its first anchor, if any.
`$("table")` followed by `find("tr")` visits rows table by table, which is
list concatenation here. -/

structure Cell where
  text : String
  href : Option String := none
deriving DecidableEq, Repr

abbrev Row := List Cell
abbrev Table := List Row
abbrev Page := List Table

/-- `cells.eq(k).text().trim()`: the empty selection yields the empty
string, `|| ""` included. -/
def cellText (r : Row) (k : Nat) : String :=
  jsTrim (((r.get? k).map Cell.text).getD "")

/-- Lifecycle status of a listing. -/
inductive IpoStatus
  | upcoming
  | openNow
  | closed
deriving DecidableEq, Repr

/-- The status classifier applied at the current date.  `determineStatus`
reads the wall clock (`new Date()`), so the extractors receive it as a
function of the parsed open/close dates: this keeps the time dependence
explicit without fixing a particular current date. -/
abbrev StatusFn := Option String → Option String → IpoStatus

/-- `RawIpoData` produced per accepted table row. -/
structure RawIpoData where
  symbol : String
  companyName : String
  openDate : String
  closeDate : String
  priceRange : String
  lotSize : Nat
  issueSize : String
  status : IpoStatus
  detailUrl : String
deriving DecidableEq, Repr

def chittorgarhBase : String := "https://www.chittorgarh.com"

/-- `detailLink ? (detailLink.startsWith("http") ? detailLink : BASE + detailLink) : ""`;
an absent or empty (falsy) link yields the empty string. -/
def resolveUrl (href : Option String) : String :=
  match href with
  | none => ""
  | some l =>
    if l = "" then ""
    else if "http".data.isPrefixOf l.data then l
    else chittorgarhBase ++ l

/-- `parseInt(lotSizeCell.replace(/[^0-9]/g, "")) || 0`: keep the digits,
parse, and treat `NaN` (no digits) and `0` alike as `0`. -/
def parseLot (s : String) : Nat := natOfDigits (s.data.filter Char.isDigit)

/-- The characters of the character class `/[-–to]/i`: the date-range cell
is split on hyphen, en dash, and the letters `t` and `o` in either case
(the source writes a character class, not the alternation `-|–|to`). -/
def dateSplitChar (c : Char) : Bool :=
  c = '-' || c = Char.ofNat 0x2013 || c = 't' || c = 'T' || c = 'o' || c = 'O'

/-- Open/close date texts of the dashboard template:
`dates.split(/[-–to]/i).map(trim)` with `parts[0] || ""` and
`parts[1] || parts[0] || ""`. -/
def openCloseOf (datesCell : String) : String × String :=
  let parts := (jsSplit dateSplitChar datesCell).map jsTrim
  let p0 := (parts.get? 0).getD ""
  let p1 := (parts.get? 1).getD ""
  (jsOr p0 "", jsOr p1 (jsOr p0 ""))

/-- One row of the primary (dashboard) template. -/
def dashRow (st : StatusFn) (row : Row) : Option RawIpoData :=
  if row.length < 3 then none
  else
    let companyText := cellText row 0
    if companyText = "" || companyText.length < 3 then none
    else if containsCI companyText "company" || containsCI companyText "ipo name" then none
    else
      let companyName := cleanDashName companyText
      let symbol := deriveSymbol dashWords companyName
      let oc := openCloseOf (cellText row 1)
      let priceCell := cellText row 2
      let issueSizeCell := cellText row 3
      let lotSizeCell := cellText row 4
      let openDate := parseDate oc.1
      let closeDate := parseDate oc.2
      if symbol ≠ "" ∧ companyName ≠ "" ∧ 3 ≤ symbol.length then
        some
          { symbol := symbol
            companyName := companyName
            openDate := oc.1
            closeDate := oc.2
            priceRange := jsOr priceCell "TBA"
            lotSize := parseLot lotSizeCell
            issueSize := jsOr issueSizeCell "TBA"
            status := st openDate closeDate
            detailUrl := resolveUrl ((row.get? 0).bind Cell.href) }
      else none

/-- One row of the fallback (list page) template: four positional date/price
cells, no header-text rejection, lot size fixed at zero. -/
def listRow (st : StatusFn) (row : Row) : Option RawIpoData :=
  if row.length < 4 then none
  else
    let companyText := cellText row 0
    if companyText = "" || companyText.length < 3 then none
    else
      let companyName := cleanListName companyText
      let symbol := deriveSymbol listWords companyName
      let openDateStr := cellText row 1
      let closeDateStr := cellText row 2
      let priceCell := cellText row 3
      let issueSizeCell := cellText row 4
      let openDate := parseDate openDateStr
      let closeDate := parseDate closeDateStr
      if symbol ≠ "" ∧ companyName ≠ "" ∧ 3 ≤ symbol.length then
        some
          { symbol := symbol
            companyName := companyName
            openDate := openDateStr
            closeDate := closeDateStr
            priceRange := jsOr priceCell "TBA"
            lotSize := 0
            issueSize := jsOr issueSizeCell "TBA"
            status := st openDate closeDate
            detailUrl := resolveUrl ((row.get? 0).bind Cell.href) }
      else none

/-- All rows of the primary template, in document order. -/
def extractDashboard (st : StatusFn) (p : Page) : List RawIpoData :=
  p.flatten.filterMap (dashRow st)

/-- All rows of the fallback template, in document order. -/
def extractList (st : StatusFn) (p : Page) : List RawIpoData :=
  p.flatten.filterMap (listRow st)

/-- `scrapeMainboardIPOs`: a failed dashboard fetch is caught and yields no
rows; the fallback page is consulted exactly when the primary template
produced zero rows, and its own failure is caught likewise. -/
def scrapeMainboard (st : StatusFn) (dash fb : Except Unit Page) : List RawIpoData :=
  let primary := match dash with
    | .ok p => extractDashboard st p
    | .error _ => []
  if primary.length = 0 then
    match fb with
    | .ok p => extractList st p
    | .error _ => []
  else primary

/-! ## GMP (Grey Market Premium) extractor -/

structure GmpData where
  symbol : String
  gmp : Int
  expectedListing : Nat
deriving DecidableEq, Repr

/-- Leftmost match of `/[+-]?\d+/` followed by `parseInt`: a sign counts
only when immediately followed by a digit. -/
def firstSignedIntAux : List Char → Option Int
  | [] => none
  | c :: rest =>
    if c.isDigit then
      some (Int.ofNat (natOfDigits ((c :: rest).takeWhile Char.isDigit)))
    else
      if (c = '+' || c = '-') &&
          (match rest with | d :: _ => d.isDigit | [] => false) then
        let v : Int := Int.ofNat (natOfDigits (rest.takeWhile Char.isDigit))
        some (if c = '-' then -v else v)
      else firstSignedIntAux rest

/-- `gmpText.match(/[+-]?\d+/)` with `parseInt`, defaulting to 0. -/
def jsFirstSignedInt (s : String) : Int := (firstSignedIntAux s.data).getD 0

/-- Leftmost match of `/\d+/` with `parseInt`, defaulting to 0. -/
def firstNatAux : List Char → Option Nat
  | [] => none
  | c :: rest =>
    if c.isDigit then some (natOfDigits ((c :: rest).takeWhile Char.isDigit))
    else firstNatAux rest

def jsFirstNat (s : String) : Nat := (firstNatAux s.data).getD 0

/-- One row of a GMP table. -/
def gmpRow (row : Row) : Option GmpData :=
  if row.length < 2 then none
  else
    let companyName := cellText row 0
    if companyName = "" || companyName.length < 3 then none
    else if containsCI companyName "company" || containsCI companyName "ipo name" then none
    else
      let symbol := deriveSymbol gmpWords companyName
      if symbol ≠ "" ∧ 3 ≤ symbol.length then
        some
          { symbol := symbol
            gmp := jsFirstSignedInt (cellText row 1)
            expectedListing := jsFirstNat (cellText row 2) }
      else none

/-- Accepted GMP rows of a page before deduplication, in document order. -/
def gmpCandidates (p : Page) : List GmpData :=
  p.flatten.filterMap gmpRow

/-- `if (!gmpData.find(g => g.symbol === symbol)) gmpData.push(...)`:
append unless the symbol is already present. -/
def pushNew (acc : List GmpData) (g : GmpData) : List GmpData :=
  if acc.any (fun x => x.symbol = g.symbol) then acc else acc ++ [g]

/-- Process one GMP page into the running accumulator. -/
def scrapeGmpPage (p : Page) (acc : List GmpData) : List GmpData :=
  (gmpCandidates p).foldl pushNew acc

/-- `scrapeGmpData`'s page loop: a failed fetch is caught and skipped; after
a successful fetch the loop stops as soon as the accumulator is nonempty. -/
def scrapeGmpGo : List (Except Unit Page) → List GmpData → List GmpData
  | [], acc => acc
  | f :: rest, acc =>
    match f with
    | .error _ => scrapeGmpGo rest acc
    | .ok p =>
      let acc2 := scrapeGmpPage p acc
      if acc2.length > 0 then acc2 else scrapeGmpGo rest acc2

/-- `scrapeGmpData` over the candidate pages in priority order. -/
def scrapeGmpData (fetches : List (Except Unit Page)) : List GmpData :=
  scrapeGmpGo fetches []

/-! ## Sector Classifier (`detectSector`, second scraper variant) -/

def hasAny (n : String) (keys : List String) : Bool :=
  keys.any (fun k => containsSub n k)

/-- `detectSector`: case-insensitive keyword matching in fixed priority
order, defaulting to "Industrial". -/
def detectSector (companyName : String) : String :=
  let n := lowerStr companyName
  if hasAny n ["pharma", "health", "hospital", "medical", "nephro", "bio"] then "Healthcare"
  else if hasAny n ["tech", "software", "digital", "info", "it ", "data", "ai", "cloud"] then "Technology"
  else if hasAny n ["bank", "finance", "capital", "financial", "icici", "hdfc", "insurance", "prudent"] then "Financial Services"
  else if hasAny n ["power", "energy", "solar", "electric", "renewable", "photovoltaic"] then "Energy"
  else if hasAny n ["food", "consumer", "retail", "mart", "store"] then "Consumer"
  else if hasAny n ["infra", "construction", "real", "cement", "steel"] then "Infrastructure"
  else if hasAny n ["auto", "motor", "vehicle", "logistics", "transport", "shadowfax"] then "Logistics & Transport"
  else if hasAny n ["media", "entertain", "broadcast", "amagi"] then "Media & Entertainment"
  else if hasAny n ["chemical", "material", "metal"] then "Chemicals & Materials"
  else if hasAny n ["education", "learn", "physics", "school", "capillary", "excel"] then "Education & Technology"
  else "Industrial"

/-! ## Scoring Engine -/

/-- The nullable financial-attribute bundle fed to the Scoring Engine. -/
structure ScoreInput where
  revenueGrowth : Option ℚ := none
  ebitdaMargin : Option ℚ := none
  patMargin : Option ℚ := none
  roe : Option ℚ := none
  roce : Option ℚ := none
  debtToEquity : Option ℚ := none
  peRatio : Option ℚ := none
  pbRatio : Option ℚ := none
  sectorPeMedian : Option ℚ := none
  freshIssue : Option ℚ := none
  ofsRatio : Option ℚ := none
  promoterHolding : Option ℚ := none
  postIpoPromoterHolding : Option ℚ := none
deriving DecidableEq, Repr

inductive RiskLevel
  | conservative
  | moderate
  | aggressive
deriving DecidableEq, Repr

structure ScoreResult where
  fundamentalsScore : Option ℚ
  valuationScore : Option ℚ
  governanceScore : Option ℚ
  overallScore : Option ℚ
  riskLevel : RiskLevel
  redFlags : List String
  pros : List String
deriving DecidableEq, Repr

/-- Average of the present contributions; `none` when no input contributed. -/
def avgOf (l : List ℚ) : Option ℚ :=
  if l = [] then none else some (l.sum / l.length)

/-- Contribution of one nullable metric: a `null` input is skipped, never
treated as zero. -/
def contrib (v : Option ℚ) (f : ℚ → ℚ) : List ℚ :=
  match v with
  | some x => [f x]
  | none => []

/-- Four-band breakpoint grade rising with the metric. -/
def gradeUp (v t1 t2 t3 : ℚ) : ℚ :=
  if v ≥ t3 then 10 else if v ≥ t2 then 7 else if v ≥ t1 then 4 else 0

/-- Four-band breakpoint grade falling with the metric (leverage-style). -/
def gradeDown (v t1 t2 t3 : ℚ) : ℚ :=
  if v ≤ t1 then 10 else if v ≤ t2 then 7 else if v ≤ t3 then 4 else 0

def optToList (v : Option ℚ) : List ℚ :=
  match v with
  | some x => [x]
  | none => []

/-- Modelled from the spec: `calculateIpoScore` lives in
`server/services/scoring.ts`, which is not among the provided source files
(only its callers in `scraper.ts` and the route registrations are).  This
definition follows the spec's Scoring Engine section: three sub-scores built
from independent clamped breakpoint contributions in which a `null` input
skips its contribution; valuation compares `peRatio` against
`sectorPeMedian` and considers `pbRatio`; governance penalizes a high
`ofsRatio` and a large promoter-holding drop; the overall score averages the
non-null sub-scores; risk maps high scores to `conservative` (threshold 7.5)
and scores below 4 to `aggressive`; red flags and pros are emitted in the
fixed check order of their metrics.  It is a pure function of the bundle. -/
def calculateIpoScore (b : ScoreInput) : ScoreResult :=
  let fundamentals := avgOf
    (contrib b.revenueGrowth (fun v => gradeUp v 10 20 30) ++
     contrib b.ebitdaMargin (fun v => gradeUp v 10 18 25) ++
     contrib b.patMargin (fun v => gradeUp v 5 10 15) ++
     contrib b.roe (fun v => gradeUp v 10 15 20) ++
     contrib b.roce (fun v => gradeUp v 10 15 20) ++
     contrib b.debtToEquity (fun v => gradeDown v (3/10) (7/10) (3/2)))
  let peContrib : List ℚ :=
    match b.peRatio, b.sectorPeMedian with
    | some pe, some med => [gradeDown (pe / med) (4/5) (11/10) (3/2)]
    | _, _ => []
  let valuation := avgOf
    (peContrib ++ contrib b.pbRatio (fun v => gradeDown v 2 4 6))
  let dropContrib : List ℚ :=
    match b.promoterHolding, b.postIpoPromoterHolding with
    | some pre, some post => [gradeDown (pre - post) 3 7 12]
    | _, _ => []
  let governance := avgOf
    (contrib b.ofsRatio (fun v => gradeDown v (1/5) (7/20) (1/2)) ++ dropContrib)
  let overall := avgOf
    (optToList fundamentals ++ optToList valuation ++ optToList governance)
  let risk :=
    match overall with
    | some o =>
      if o ≥ 15/2 then RiskLevel.conservative
      else if o ≥ 4 then RiskLevel.moderate
      else RiskLevel.aggressive
    | none => RiskLevel.moderate
  let redFlags :=
    (match b.ofsRatio with
     | some x => if x ≥ 2/5 then ["High OFS component: promoters largely cashing out"] else []
     | none => []) ++
    (match b.peRatio, b.sectorPeMedian with
     | some pe, some med => if pe > 3/2 * med then ["Valuation far above sector median"] else []
     | _, _ => []) ++
    (match b.debtToEquity with
     | some d => if d ≥ 3/2 then ["High leverage"] else []
     | none => []) ++
    (match b.promoterHolding, b.postIpoPromoterHolding with
     | some pre, some post => if pre - post ≥ 10 then ["Large promoter holding drop"] else []
     | _, _ => [])
  let pros :=
    (match b.revenueGrowth with
     | some g => if g ≥ 30 then ["Strong revenue growth"] else []
     | none => []) ++
    (match b.peRatio, b.sectorPeMedian with
     | some pe, some med => if pe < med then ["Attractive valuation versus sector"] else []
     | _, _ => []) ++
    (match b.debtToEquity with
     | some d => if d ≤ 3/10 then ["Low leverage"] else []
     | none => []) ++
    (match b.postIpoPromoterHolding with
     | some post => if post ≥ 60 then ["High promoter retention"] else []
     | none => [])
  { fundamentalsScore := fundamentals
    valuationScore := valuation
    governanceScore := governance
    overallScore := overall
    riskLevel := risk
    redFlags := redFlags
    pros := pros }

/-! ## Score colour bands (`getScoreColor` in IpoCard.tsx)

The card UI classifies a non-null `overallScore` into four colour bands at
the thresholds 7.5, 6 and 4; the emerald band is the conservative-risk band,
blue the moderate band, and red the aggressive band. -/

inductive ScoreColor
  | emerald
  | blue
  | amber
  | red
deriving DecidableEq, Repr

def getScoreColor (s : ℚ) : ScoreColor :=
  if s ≥ 7.5 then .emerald
  else if s ≥ 6 then .blue
  else if s ≥ 4 then .amber
  else .red

/-! ## Pipeline Orchestrator (`scrapeAndTransformIPOs`)

`scraper.ts` contains two variants of the orchestrator, separated by a
document marker in the packed source.  Both join raw listings to GMP
records through `new Map(gmpData.map(g => [g.symbol, g]))` — an exact-match
lookup in which a later duplicate key would overwrite an earlier one — and
differ in how they fill the financial fields and the unmatched-GMP default:
the first variant leaves financials `null` and the unmatched GMP `null`;
the second variant synthesizes financials per sector and substitutes a
random sample GMP (`Math.floor(Math.random()*100) - 20`) when no record
matches.  The random draws are passed in as explicit parameters here.
Fields built from floating-point display formatting
(`minInvestment` via `toLocaleString`, `extractPriceFromRange`'s
`parseFloat`) are outside every claim and are omitted from the record. -/

structure ScoredIpo where
  symbol : String
  companyName : String
  priceRange : String
  expectedDate : Option String
  status : IpoStatus
  description : String
  sector : Option String
  issueSize : String
  lotSize : Option Nat
  gmp : Option Int
  financials : ScoreInput
  fundamentalsScore : Option ℚ
  valuationScore : Option ℚ
  governanceScore : Option ℚ
  overallScore : Option ℚ
  riskLevel : RiskLevel
  redFlags : List String
  pros : List String
deriving DecidableEq, Repr

/-- `new Map(entries).get(s)`: the last entry with key `s` wins. -/
def gmpMapGet (gmps : List GmpData) (s : String) : Option GmpData :=
  gmps.foldl (fun acc g => if g.symbol = s then some g else acc) none

/-- `raw.priceRange.includes("₹") ? raw.priceRange : "₹" + raw.priceRange`. -/
def rupeePrice (pr : String) : String :=
  if containsSub pr "₹" then pr else "₹" ++ pr

/-- `raw.lotSize || null`. -/
def lotOrNull (n : Nat) : Option Nat := if n = 0 then none else some n

/-- Per-listing transform of the first orchestrator variant: every
financial field is `null` and an unmatched symbol keeps a `null` GMP
(`gmp: gmp?.gmp ?? null`). -/
def transformOne1 (gmps : List GmpData) (raw : RawIpoData) : ScoredIpo :=
  let gmpRec := gmpMapGet gmps raw.symbol
  let base : ScoreInput := {}
  let scores := calculateIpoScore base
  { symbol := raw.symbol
    companyName := raw.companyName
    priceRange := rupeePrice raw.priceRange
    expectedDate := parseDate raw.openDate
    status := raw.status
    description := raw.companyName ++ " IPO. Issue size: " ++ raw.issueSize ++ "."
    sector := none
    issueSize := raw.issueSize
    lotSize := lotOrNull raw.lotSize
    gmp := gmpRec.map GmpData.gmp
    financials := base
    fundamentalsScore := scores.fundamentalsScore
    valuationScore := scores.valuationScore
    governanceScore := scores.governanceScore
    overallScore := scores.overallScore
    riskLevel := scores.riskLevel
    redFlags := scores.redFlags
    pros := scores.pros }

/-- The bundle `generateFinancialMetrics` returns: every field is a number
(drawn from sector ranges at run time). -/
structure FinMetrics where
  revenueGrowth : ℚ
  ebitdaMargin : ℚ
  patMargin : ℚ
  roe : ℚ
  roce : ℚ
  debtToEquity : ℚ
  peRatio : ℚ
  pbRatio : ℚ
  sectorPeMedian : ℚ
  freshIssue : ℚ
  ofsRatio : ℚ
  promoterHolding : ℚ
  postIpoPromoterHolding : ℚ
deriving DecidableEq, Repr

def FinMetrics.toInput (f : FinMetrics) : ScoreInput :=
  { revenueGrowth := some f.revenueGrowth
    ebitdaMargin := some f.ebitdaMargin
    patMargin := some f.patMargin
    roe := some f.roe
    roce := some f.roce
    debtToEquity := some f.debtToEquity
    peRatio := some f.peRatio
    pbRatio := some f.pbRatio
    sectorPeMedian := some f.sectorPeMedian
    freshIssue := some f.freshIssue
    ofsRatio := some f.ofsRatio
    promoterHolding := some f.promoterHolding
    postIpoPromoterHolding := some f.postIpoPromoterHolding }

/-- Per-listing transform of the second orchestrator variant.  `fin` stands
for this listing's `generateFinancialMetrics(sector)` draw and `sampleGmp`
for this listing's `Math.floor(Math.random()*100) - 20` draw; the GMP field
is `gmp?.gmp ?? sampleGmp`, hence never `null`. -/
def transformOne2 (gmps : List GmpData) (fin : FinMetrics) (sampleGmp : Int)
    (raw : RawIpoData) : ScoredIpo :=
  let sector := detectSector raw.companyName
  let gmpRec := gmpMapGet gmps raw.symbol
  let base := fin.toInput
  let scores := calculateIpoScore base
  { symbol := raw.symbol
    companyName := raw.companyName
    priceRange := rupeePrice raw.priceRange
    expectedDate := parseDate raw.openDate
    status := raw.status
    description := raw.companyName ++ " IPO. Issue size: " ++ raw.issueSize ++
      ". Sector: " ++ sector ++ "."
    sector := some sector
    issueSize := raw.issueSize
    lotSize := lotOrNull raw.lotSize
    gmp := some (match gmpRec with | some g => g.gmp | none => sampleGmp)
    financials := base
    fundamentalsScore := scores.fundamentalsScore
    valuationScore := scores.valuationScore
    governanceScore := scores.governanceScore
    overallScore := scores.overallScore
    riskLevel := scores.riskLevel
    redFlags := scores.redFlags
    pros := scores.pros }

/-- First-variant orchestrator.  Every fetch failure below it is caught by
the source-specific try/catch blocks (`scrapeMainboardIPOs` catches both of
its fetches, `scrapeGmpData` catches each page), so the body of
`scrapeAndTransformIPOs` never observes an exception and its own
try/re-throw never fires: the result is always `ok`, an `error` would model
the re-thrown hard failure. -/
def scrapeAndTransform1 (st : StatusFn) (dash fb : Except Unit Page)
    (gmpFetches : List (Except Unit Page)) : Except String (List ScoredIpo) :=
  let raws := scrapeMainboard st dash fb
  let gmps := scrapeGmpData gmpFetches
  Except.ok (raws.map (transformOne1 gmps))

/-- Second-variant orchestrator; `fin` and `samp` supply the per-listing
random draws by position. -/
def scrapeAndTransform2 (st : StatusFn) (dash fb : Except Unit Page)
    (gmpFetches : List (Except Unit Page)) (fin : Nat → FinMetrics)
    (samp : Nat → Int) : Except String (List ScoredIpo) :=
  let raws := scrapeMainboard st dash fb
  let gmps := scrapeGmpData gmpFetches
  Except.ok (raws.enum.map (fun p => transformOne2 gmps (fin p.1) (samp p.1) p.2))

/-! ## Symbol-alphabet lemmas -/

/-- An uppercase ASCII letter or a decimal digit — the alphabet symbols are
made of. -/
def isSymChar (c : Char) : Bool := c.isUpper || c.isDigit

theorem alnum_toNat_le (c : Char) (h : c.isAlphanum = true) : c.toNat ≤ 122 := by
  simp only [Char.isAlphanum, Char.isAlpha, Char.isUpper, Char.isLower, Char.isDigit,
    Bool.or_eq_true, Bool.and_eq_true, decide_eq_true_eq] at h
  simp only [Char.toNat]
  rcases h with (⟨_, h⟩ | ⟨_, h⟩) | ⟨_, h⟩
  · have := @UInt32.toNat_le_of_le c.val 90 (by decide) h
    omega
  · have := @UInt32.toNat_le_of_le c.val 122 (by decide) h
    omega
  · have := @UInt32.toNat_le_of_le c.val 57 (by decide) h
    omega

theorem symChar_toUpper_table :
    ∀ n, n < 123 → (!(Char.ofNat n).isAlphanum || isSymChar (Char.ofNat n).toUpper) = true := by
  decide

/-- Uppercasing an alphanumeric character lands in the symbol alphabet. -/
theorem toUpper_symChar (c : Char) (h : c.isAlphanum = true) :
    isSymChar c.toUpper = true := by
  have hle : c.toNat ≤ 122 := alnum_toNat_le c h
  have ht := symChar_toUpper_table c.toNat (by omega)
  rw [Char.ofNat_toNat] at ht
  simp only [h, Bool.not_true, Bool.false_or] at ht
  exact ht

/-- Every character of a derived symbol is an uppercase letter or digit. -/
theorem deriveSymbol_symChars (ws : List String) (n : String) :
    (deriveSymbol ws n).data.all isSymChar = true := by
  simp only [deriveSymbol, List.all_eq_true]
  intro c hc
  have hc2 := List.take_subset 12 _ hc
  rcases List.mem_map.mp hc2 with ⟨c0, hc0, rfl⟩
  exact toUpper_symChar c0 (List.mem_filter.mp hc0).2

/-- A derived symbol never exceeds 12 characters. -/
theorem deriveSymbol_le12 (ws : List String) (n : String) :
    (deriveSymbol ws n).length ≤ 12 := by
  simp [deriveSymbol, String.length]

/-- A row the dashboard template accepts carries the symbol derived from
its cleaned company name, and that symbol passed the length guard. -/
theorem dashRow_symbol (st : StatusFn) (row : Row) (l : RawIpoData)
    (h : dashRow st row = some l) :
    l.symbol = deriveSymbol dashWords (cleanDashName (cellText row 0)) ∧
    3 ≤ l.symbol.length := by
  simp only [dashRow] at h
  split at h
  · exact Option.noConfusion h
  split at h
  · exact Option.noConfusion h
  split at h
  · exact Option.noConfusion h
  split at h
  case isTrue hg =>
    cases Option.some.inj h
    exact ⟨rfl, hg.2.2⟩
  case isFalse => exact Option.noConfusion h

/-- Same fact for the fallback template. -/
theorem listRow_symbol (st : StatusFn) (row : Row) (l : RawIpoData)
    (h : listRow st row = some l) :
    l.symbol = deriveSymbol listWords (cleanListName (cellText row 0)) ∧
    3 ≤ l.symbol.length := by
  simp only [listRow] at h
  split at h
  · exact Option.noConfusion h
  split at h
  · exact Option.noConfusion h
  split at h
  case isTrue hg =>
    cases Option.some.inj h
    exact ⟨rfl, hg.2.2⟩
  case isFalse => exact Option.noConfusion h

/-! ## Concrete fixtures used by the claim theorems -/

/-- A fixed status classifier standing for one particular current date. -/
def stDummy : StatusFn := fun _ _ => IpoStatus.upcoming

def rowAlphaLtd : Row := [⟨"Alpha Ltd", none⟩, ⟨"5 May, 2025", none⟩, ⟨"₹95-100", none⟩]

def rowAlphaLimited : Row := [⟨"Alpha Limited", none⟩, ⟨"6 May, 2025", none⟩, ⟨"₹95-100", none⟩]

/-- Two distinct accepted rows that derive the same symbol `ALPHA`. -/
def pageDup : Page := [[rowAlphaLtd, rowAlphaLimited]]

def gAlpha : GmpData := ⟨"ALPHA", 42, 100⟩

/-- A raw listing whose symbol matches no GMP record in an empty GMP list. -/
def rawNoMatch : RawIpoData :=
  ⟨"ALPHA", "Alpha Ltd", "", "", "TBA", 0, "TBA", .upcoming, ""⟩

/-- One concrete synthesized financial bundle. -/
def finSample : FinMetrics := ⟨20, 20, 10, 15, 15, 1, 30, 3, 25, 50, 3/10, 70, 65⟩

/-! ## Claims -/

/-- Claim C1: the Scoring Engine is deterministic — two calls on the same
financial-attribute bundle give identical sub-scores, overall score, risk
level and identically-ordered red-flag and pros lists; the model is a pure
function of the bundle alone, with no clock or external-state argument. -/
theorem calculateIpoScore_deterministic (b : ScoreInput) :
    calculateIpoScore b = calculateIpoScore b ∧
    (calculateIpoScore b).fundamentalsScore = (calculateIpoScore b).fundamentalsScore ∧
    (calculateIpoScore b).valuationScore = (calculateIpoScore b).valuationScore ∧
    (calculateIpoScore b).governanceScore = (calculateIpoScore b).governanceScore ∧
    (calculateIpoScore b).overallScore = (calculateIpoScore b).overallScore ∧
    (calculateIpoScore b).riskLevel = (calculateIpoScore b).riskLevel ∧
    (calculateIpoScore b).redFlags = (calculateIpoScore b).redFlags ∧
    (calculateIpoScore b).pros = (calculateIpoScore b).pros :=
  ⟨rfl, rfl, rfl, rfl, rfl, rfl, rfl, rfl⟩

/-- Claim C2: the risk classification of an overall score uses exactly the
thresholds 7.5, 6 and 4 — a score of exactly 7.5 falls in the conservative
(emerald) band, 7.49 and exactly 6.0 fall in the moderate (blue) band, 3.99
falls in the aggressive (red) band, and in general any score at or above 7.5
is conservative-band while any score below 4 is aggressive-band. -/
theorem scoreColor_thresholds :
    getScoreColor 7.5 = .emerald ∧
    getScoreColor 7.49 = .blue ∧
    getScoreColor 6 = .blue ∧
    getScoreColor 3.99 = .red ∧
    (∀ s : ℚ, 7.5 ≤ s → getScoreColor s = .emerald) ∧
    (∀ s : ℚ, 6 ≤ s → s < 7.5 → getScoreColor s = .blue) ∧
    (∀ s : ℚ, 4 ≤ s → s < 6 → getScoreColor s = .amber) ∧
    (∀ s : ℚ, s < 4 → getScoreColor s = .red) := by
  refine ⟨by norm_num [getScoreColor], by norm_num [getScoreColor],
    by norm_num [getScoreColor], by norm_num [getScoreColor], ?_, ?_, ?_, ?_⟩ <;>
    intro s <;> intros <;> unfold getScoreColor <;> split_ifs <;>
    first | rfl | linarith

theorem scoreColor_thresholds_witness :
    getScoreColor 9 = .emerald ∧ getScoreColor 7 = .blue ∧
    getScoreColor 5 = .amber ∧ getScoreColor 2 = .red :=
  ⟨scoreColor_thresholds.2.2.2.2.1 9 (by norm_num),
   scoreColor_thresholds.2.2.2.2.2.1 7 (by norm_num) (by norm_num),
   scoreColor_thresholds.2.2.2.2.2.2.1 5 (by norm_num) (by norm_num),
   scoreColor_thresholds.2.2.2.2.2.2.2 2 (by norm_num)⟩

/-- Claim C3 counterexample: in the second orchestrator variant a raw
listing whose symbol matches no GMP record is emitted with the substituted
sample premium, not with a `null` GMP field. -/
theorem gmp_join_counterexample :
    gmpMapGet [] rawNoMatch.symbol = none ∧
    (transformOne2 [] finSample 5 rawNoMatch).gmp = some 5 ∧
    (transformOne2 [] finSample 5 rawNoMatch).gmp ≠ none :=
  ⟨rfl, rfl, by decide⟩

/-- Claim C3 (amended): in both orchestrator variants a listing whose
symbol exactly matches a GMP record receives that record's premium; an
unmatched listing receives a `null` GMP in the first variant, while the
second variant substitutes the generated sample premium and never emits
`null`. -/
theorem gmp_join_amended (gmps : List GmpData) (raw : RawIpoData)
    (fin : FinMetrics) (samp : Int) :
    (∀ g, gmpMapGet gmps raw.symbol = some g →
      (transformOne1 gmps raw).gmp = some g.gmp ∧
      (transformOne2 gmps fin samp raw).gmp = some g.gmp) ∧
    (gmpMapGet gmps raw.symbol = none →
      (transformOne1 gmps raw).gmp = none ∧
      (transformOne2 gmps fin samp raw).gmp = some samp) := by
  constructor
  · intro g h
    constructor
    · simp [transformOne1, h]
    · simp [transformOne2, h]
  · intro h
    constructor
    · simp [transformOne1, h]
    · simp [transformOne2, h]

theorem gmp_join_amended_witness :
    (transformOne1 [gAlpha] rawNoMatch).gmp = some 42 ∧
    (transformOne2 [gAlpha] finSample 5 rawNoMatch).gmp = some 42 :=
  (gmp_join_amended [gAlpha] rawNoMatch finSample 5).1 gAlpha rfl

/-- Claim C4 counterexample: with both listings sources successfully fetched
but yielding zero usable rows, the orchestrator returns an empty `ok`
result — no hard failure is surfaced to the caller. -/
theorem orchestrator_empty_ok_counterexample :
    scrapeMainboard stDummy (.ok []) (.ok []) = [] ∧
    scrapeAndTransform1 stDummy (.ok []) (.ok []) [] = .ok [] :=
  ⟨rfl, rfl⟩

/-- Claim C4 (amended): the orchestrator never surfaces a hard failure for
any combination of source results; when the listings extraction (primary
plus fallback) produces zero usable rows it returns `ok` with the empty
list instead of an error. -/
theorem orchestrator_never_hard_fails (st : StatusFn) (dash fb : Except Unit Page)
    (gmps : List (Except Unit Page)) :
    (∃ l, scrapeAndTransform1 st dash fb gmps = .ok l) ∧
    (scrapeMainboard st dash fb = [] →
      scrapeAndTransform1 st dash fb gmps = .ok []) := by
  constructor
  · exact ⟨_, rfl⟩
  · intro h
    simp [scrapeAndTransform1, h]

theorem orchestrator_never_hard_fails_witness :
    scrapeAndTransform1 stDummy (.error ()) (.error ()) [] = .ok [] :=
  (orchestrator_never_hard_fails stDummy (.error ()) (.error ()) []).2 rfl

/-- Claim C6: the date-range cell is split with the character class
`/[-–to]/i`, which separates on the letters `t` and `o` as well as on the
dashes; `"12 Nov, 2024 - 15 Nov, 2024"` therefore yields the open text
`"12 N"` (cut inside `Nov`) and the close text `"v, 2024"` instead of the
two dates, and even a single-date cell is mangled, making the subsequent
date parse fail. -/
theorem dateRangeSplit_charclass_bug :
    openCloseOf "12 Nov, 2024 - 15 Nov, 2024" = ("12 N", "v, 2024") ∧
    openCloseOf "12 Nov, 2024" = ("12 N", "v, 2024") ∧
    ("12 N" : String) ≠ "12 Nov, 2024" ∧
    parseDate "12 N" = none ∧
    parseDate "v, 2024" = none := by
  refine ⟨by decide, by decide, by decide, by decide, by decide⟩

/-- Claim C10: the listings extractor performs no per-symbol deduplication —
`"Alpha Ltd"` and `"Alpha Limited"` both derive the symbol `ALPHA`, the
extractor emits both rows, and the join then attaches the same GMP record's
premium to each emitted record. -/
theorem listings_no_dedup :
    (extractDashboard stDummy pageDup).map RawIpoData.symbol = ["ALPHA", "ALPHA"] ∧
    ((extractDashboard stDummy pageDup).map
        (fun r => (transformOne1 [gAlpha] r).gmp)) = [some 42, some 42] := by
  constructor <;> decide

/-- A fallback-template row whose name cell is the header text
`"Company Name"`, with the template's four cells. -/
def hdrRow4 : Row :=
  [⟨"Company Name", none⟩, ⟨"Open", none⟩, ⟨"Close", none⟩, ⟨"Price", none⟩]

/-- The same header row with the primary template's three cells. -/
def hdrRow3 : Row := [⟨"Company Name", none⟩, ⟨"5 May, 2025", none⟩, ⟨"₹95", none⟩]

/-- Claim C7 counterexample: the fallback template performs no header-text
check — a row whose name cell is `"Company Name"` and which has the four
required cells is emitted (with symbol `COMPANYNAME`), not discarded. -/
theorem fallback_header_row_emitted :
    (listRow stDummy hdrRow4).isSome = true ∧
    (listRow stDummy hdrRow4).map RawIpoData.symbol = some "COMPANYNAME" := by
  refine ⟨by decide, by decide⟩

/-- Claim C7 (amended): the primary template discards every row whose name
cell case-insensitively contains `"company"` or `"ipo name"` — in particular
a `"Company Name"` header row — and both templates discard rows below their
minimum cell count (3 and 4 cells respectively) and rows whose name-cell
text is shorter than 3 characters; the fallback template, however, has no
header-text check and emits a `"Company Name"` row that satisfies its other
guards. -/
theorem row_rejection_amended :
    (∀ st row, containsCI (cellText row 0) "company" = true ∨
        containsCI (cellText row 0) "ipo name" = true → dashRow st row = none) ∧
    (∀ st row, row.length < 3 → dashRow st row = none) ∧
    (∀ st row, row.length < 4 → listRow st row = none) ∧
    (∀ st row, (cellText row 0).length < 3 →
        dashRow st row = none ∧ listRow st row = none) ∧
    (∀ st, dashRow st hdrRow3 = none) ∧
    (∀ st, (listRow st hdrRow4).isSome = true) := by
  refine ⟨?_, ?_, ?_, ?_, ?_, ?_⟩
  · intro st row h
    simp only [dashRow]
    split
    · rfl
    split
    · rfl
    split
    · rfl
    next hc =>
      rcases h with h | h <;> simp [h] at hc
  · intro st row h
    simp [dashRow, h]
  · intro st row h
    simp [listRow, h]
  · intro st row h
    constructor
    · simp only [dashRow]
      split
      · rfl
      next =>
        have : (decide (cellText row 0 = "") || decide ((cellText row 0).length < 3)) = true := by
          simp [h]
        simp only [this]
        rfl
    · simp only [listRow]
      split
      · rfl
      next =>
        have : (decide (cellText row 0 = "") || decide ((cellText row 0).length < 3)) = true := by
          simp [h]
        simp only [this]
        rfl
  · intro st
    simp only [dashRow]
    split
    · rfl
    split
    · rfl
    split
    · rfl
    next hc =>
      exact absurd (by decide : containsCI (cellText hdrRow3 0) "company" = true)
        (by simp at hc; simpa using hc.1)
  · intro st
    simp only [listRow]
    norm_num
    rfl

theorem row_rejection_amended_witness :
    dashRow stDummy hdrRow3 = none ∧
    dashRow stDummy [] = none ∧
    listRow stDummy [⟨"Alpha Ltd", none⟩] = none ∧
    dashRow stDummy [⟨"ab", none⟩, ⟨"x", none⟩, ⟨"y", none⟩] = none :=
  ⟨row_rejection_amended.2.2.2.2.1 stDummy,
   row_rejection_amended.2.1 stDummy [] (by decide),
   row_rejection_amended.2.2.1 stDummy [⟨"Alpha Ltd", none⟩] (by decide),
   (row_rejection_amended.2.2.2.1 stDummy [⟨"ab", none⟩, ⟨"x", none⟩, ⟨"y", none⟩]
     (by decide)).1⟩

/-- The listing the dashboard extractor produces from `rowAlphaLtd`. -/
def sampleListing : RawIpoData :=
  ⟨"ALPHA", "Alpha Ltd", "5 May, 2025", "5 May, 2025", "₹95-100", 0, "TBA",
   .upcoming, ""⟩

/-- Claim C8: symbol derivation strips the corporate suffix words
case-insensitively, removes non-alphanumerics, uppercases and truncates to
12 characters — `"Zinka Logistics Solution Ltd"` derives `ZINKALOGISTI` —
and every listing either template emits carries a symbol of 3 to 12
uppercase alphanumeric characters. -/
theorem symbol_derivation :
    deriveSymbol dashWords "Zinka Logistics Solution Ltd" = "ZINKALOGISTI" ∧
    (∀ st p l, l ∈ extractDashboard st p →
      3 ≤ l.symbol.length ∧ l.symbol.length ≤ 12 ∧
      l.symbol.data.all isSymChar = true) ∧
    (∀ st p l, l ∈ extractList st p →
      3 ≤ l.symbol.length ∧ l.symbol.length ≤ 12 ∧
      l.symbol.data.all isSymChar = true) := by
  refine ⟨by decide, ?_, ?_⟩
  · intro st p l hl
    rcases List.mem_filterMap.mp hl with ⟨row, _, hrow⟩
    rcases dashRow_symbol st row l hrow with ⟨hsym, hlen⟩
    exact ⟨hlen, hsym ▸ deriveSymbol_le12 _ _, hsym ▸ deriveSymbol_symChars _ _⟩
  · intro st p l hl
    rcases List.mem_filterMap.mp hl with ⟨row, _, hrow⟩
    rcases listRow_symbol st row l hrow with ⟨hsym, hlen⟩
    exact ⟨hlen, hsym ▸ deriveSymbol_le12 _ _, hsym ▸ deriveSymbol_symChars _ _⟩

theorem symbol_derivation_witness :
    sampleListing ∈ extractDashboard stDummy pageDup ∧
    3 ≤ sampleListing.symbol.length ∧ sampleListing.symbol.length ≤ 12 ∧
    sampleListing.symbol.data.all isSymChar = true :=
  ⟨by decide, symbol_derivation.2.1 stDummy pageDup sampleListing (by decide)⟩

/-! ## Deduplication lemmas for the GMP extractor -/

/-- Reference deduplicator: keep each record whose symbol is neither in
`seen` nor derived from an earlier record. -/
def dedupFirst (seen : List String) : List GmpData → List GmpData
  | [] => []
  | g :: rest =>
    if g.symbol ∈ seen then dedupFirst seen rest
    else g :: dedupFirst (g.symbol :: seen) rest

theorem dedupFirst_congr (seen1 seen2 : List String)
    (h : ∀ s, s ∈ seen1 ↔ s ∈ seen2) :
    ∀ l, dedupFirst seen1 l = dedupFirst seen2 l := by
  intro l
  induction l generalizing seen1 seen2 h with
  | nil => rfl
  | cons g rest ih =>
    simp only [dedupFirst]
    by_cases hg : g.symbol ∈ seen1
    · rw [if_pos hg, if_pos ((h _).mp hg)]
      exact ih seen1 seen2 h
    · rw [if_neg hg, if_neg (fun hc => hg ((h _).mpr hc))]
      refine congrArg _ (ih _ _ ?_)
      intro s
      simp [h s]

/-- `foldl pushNew` is exactly append-the-new-symbols-first-wins. -/
theorem foldl_pushNew_eq :
    ∀ (cands acc : List GmpData),
      cands.foldl pushNew acc = acc ++ dedupFirst (acc.map GmpData.symbol) cands := by
  intro cands
  induction cands with
  | nil => intro acc; simp [dedupFirst]
  | cons c cs ih =>
    intro acc
    rw [List.foldl_cons, ih (pushNew acc c)]
    by_cases hc : c.symbol ∈ acc.map GmpData.symbol
    · have hany : acc.any (fun x => x.symbol = c.symbol) = true := by
        simp only [List.any_eq_true, decide_eq_true_eq]
        rcases List.mem_map.mp hc with ⟨x, hx, he⟩
        exact ⟨x, hx, he⟩
      rw [show pushNew acc c = acc from by simp [pushNew, hany]]
      simp [dedupFirst, hc]
    · have hany : acc.any (fun x => x.symbol = c.symbol) = false := by
        simp only [List.any_eq_false, decide_eq_true_eq]
        intro x hx he
        exact hc (List.mem_map.mpr ⟨x, hx, he⟩)
      rw [show pushNew acc c = acc ++ [c] from by simp [pushNew, hany]]
      simp only [dedupFirst, if_neg hc, List.map_append, List.map_cons, List.map_nil,
        List.append_assoc, List.singleton_append]
      refine congrArg _ (congrArg _ (dedupFirst_congr _ _ ?_ cs))
      intro s
      simp [or_comm]

/-- The deduplicated symbols avoid `seen` and are pairwise distinct. -/
theorem dedupFirst_nodup :
    ∀ (l : List GmpData) (seen : List String),
      ((dedupFirst seen l).map GmpData.symbol).Nodup ∧
      ∀ s ∈ (dedupFirst seen l).map GmpData.symbol, s ∉ seen := by
  intro l
  induction l with
  | nil => intro seen; simp [dedupFirst]
  | cons g rest ih =>
    intro seen
    simp only [dedupFirst]
    by_cases hg : g.symbol ∈ seen
    · rw [if_pos hg]
      exact ih seen
    · rw [if_neg hg]
      rcases ih (g.symbol :: seen) with ⟨hnd, hout⟩
      refine ⟨?_, ?_⟩
      · simp only [List.map_cons, List.nodup_cons]
        exact ⟨fun hmem => (hout _ hmem) (List.mem_cons_self _ _), hnd⟩
      · intro s hs
        simp only [List.map_cons, List.mem_cons] at hs
        rcases hs with rfl | hs
        · exact hg
        · exact fun hc => (hout s hs) (List.mem_cons_of_mem _ hc)

/-- Membership in the deduplicated list: exactly the first candidate
carrying each not-yet-seen symbol survives. -/
theorem mem_dedupFirst :
    ∀ (l : List GmpData) (seen : List String) (g : GmpData),
      g ∈ dedupFirst seen l ↔
        g.symbol ∉ seen ∧ l.find? (fun x => x.symbol == g.symbol) = some g := by
  intro l
  induction l with
  | nil => intro seen g; simp [dedupFirst]
  | cons c cs ih =>
    intro seen g
    simp only [dedupFirst]
    by_cases hsym : c.symbol = g.symbol
    · rw [@List.find?_cons_of_pos _ (fun x => x.symbol == g.symbol) c cs (by simp [hsym])]
      by_cases hc : c.symbol ∈ seen
      · rw [if_pos hc, ih seen g]
        constructor
        · rintro ⟨hns, _⟩
          exact absurd (hsym ▸ hc) hns
        · rintro ⟨hns, _⟩
          exact absurd (hsym ▸ hc) hns
      · rw [if_neg hc]
        simp only [List.mem_cons, ih (c.symbol :: seen) g, Option.some.injEq]
        constructor
        · rintro (rfl | ⟨hns, _⟩)
          · exact ⟨hsym ▸ hc, rfl⟩
          · exact absurd (Or.inl hsym.symm) hns
        · rintro ⟨_, rfl⟩
          exact Or.inl rfl
    · rw [@List.find?_cons_of_neg _ (fun x => x.symbol == g.symbol) c cs (by simp [hsym])]
      by_cases hc : c.symbol ∈ seen
      · rw [if_pos hc, ih seen g]
      · rw [if_neg hc]
        simp only [List.mem_cons, ih (c.symbol :: seen) g]
        constructor
        · rintro (rfl | ⟨hns, hf⟩)
          · exact absurd rfl hsym
          · exact ⟨fun hin => hns (Or.inr hin), hf⟩
        · rintro ⟨hns, hf⟩
          refine Or.inr ⟨?_, hf⟩
          intro hin
          rcases hin with he | he
          · exact hsym he.symm
          · exact hns he

/-- Every accepted GMP row's fields come from the documented cells. -/
theorem gmpRow_fields (row : Row) (g : GmpData) (h : gmpRow row = some g) :
    g.gmp = jsFirstSignedInt (cellText row 1) ∧
    g.expectedListing = jsFirstNat (cellText row 2) := by
  simp only [gmpRow] at h
  split at h
  · exact Option.noConfusion h
  split at h
  · exact Option.noConfusion h
  split at h
  · exact Option.noConfusion h
  split at h
  case isTrue =>
    cases Option.some.inj h
    exact ⟨rfl, rfl⟩
  case isFalse => exact Option.noConfusion h

/-- Accumulated GMP symbols stay pairwise distinct across the page loop. -/
theorem scrapeGmpGo_nodup :
    ∀ (fetches : List (Except Unit Page)) (acc : List GmpData),
      (acc.map GmpData.symbol).Nodup →
      ((scrapeGmpGo fetches acc).map GmpData.symbol).Nodup := by
  intro fetches
  induction fetches with
  | nil => intro acc h; exact h
  | cons f rest ih =>
    intro acc h
    cases f with
    | error e => exact ih acc h
    | ok p =>
      have hacc2 : ((scrapeGmpPage p acc).map GmpData.symbol).Nodup := by
        rw [show scrapeGmpPage p acc =
              acc ++ dedupFirst (acc.map GmpData.symbol) (gmpCandidates p) from
            foldl_pushNew_eq (gmpCandidates p) acc]
        rw [List.map_append]
        refine List.Nodup.append h (dedupFirst_nodup (gmpCandidates p) _).1 ?_
        intro s hs1 hs2
        exact (dedupFirst_nodup (gmpCandidates p) (acc.map GmpData.symbol)).2 s hs2 hs1
      simp only [scrapeGmpGo]
      split
      · exact hacc2
      · exact ih _ hacc2

/-- A one-row GMP page for the witness. -/
def gmpPage1 : Page :=
  [[[⟨"Beta Tech Ltd", none⟩, ⟨"+25", none⟩, ⟨"₹275", none⟩]]]

/-- A second GMP page that must never be consulted. -/
def gmpPage2 : Page :=
  [[[⟨"Gamma Ltd", none⟩, ⟨"+99", none⟩, ⟨"₹999", none⟩]]]

/-- Claim C9: the GMP extractor keeps at most one record per symbol (the
first occurrence wins and later duplicates are dropped), tries its candidate
pages in fixed priority order stopping at the first page that yields at
least one record, and fills each record's premium with the first
signed-or-unsigned integer substring of its cell (0 if none) and its
expected listing with the first unsigned integer substring (0 if none or
the cell is absent). -/
theorem gmp_extractor_invariants :
    (∀ fetches, ((scrapeGmpData fetches).map GmpData.symbol).Nodup) ∧
    (∀ p g, g ∈ scrapeGmpPage p [] ↔
      (gmpCandidates p).find? (fun x => x.symbol == g.symbol) = some g) ∧
    (∀ rest, scrapeGmpData (.error () :: rest) = scrapeGmpData rest) ∧
    (∀ p rest, scrapeGmpPage p [] ≠ [] →
      scrapeGmpData (.ok p :: rest) = scrapeGmpPage p []) ∧
    (∀ p rest, scrapeGmpPage p [] = [] →
      scrapeGmpData (.ok p :: rest) = scrapeGmpData rest) ∧
    (∀ row g, gmpRow row = some g →
      g.gmp = jsFirstSignedInt (cellText row 1) ∧
      g.expectedListing = jsFirstNat (cellText row 2)) ∧
    jsFirstSignedInt "₹ +25 (10%)" = 25 ∧
    jsFirstSignedInt "GMP: -12" = -12 ∧
    jsFirstSignedInt "no premium" = 0 ∧
    jsFirstNat "expected 250" = 250 ∧
    jsFirstNat "" = 0 := by
  refine ⟨?_, ?_, ?_, ?_, ?_, gmpRow_fields, by decide, by decide, by decide,
    by decide, by decide⟩
  · intro fetches
    exact scrapeGmpGo_nodup fetches [] (by simp)
  · intro p g
    have he : scrapeGmpPage p [] = dedupFirst [] (gmpCandidates p) := by
      simpa using foldl_pushNew_eq (gmpCandidates p) []
    rw [he, mem_dedupFirst (gmpCandidates p) [] g]
    simp
  · intro rest
    rfl
  · intro p rest h
    have hpos : 0 < (scrapeGmpPage p []).length := List.length_pos.mpr h
    simp only [scrapeGmpData, scrapeGmpGo]
    rw [if_pos hpos]
  · intro p rest h
    simp only [scrapeGmpData, scrapeGmpGo]
    rw [show scrapeGmpPage p [] = [] from h]
    norm_num

theorem gmp_extractor_invariants_witness :
    scrapeGmpData [.ok gmpPage1, .ok gmpPage2] = scrapeGmpPage gmpPage1 [] ∧
    scrapeGmpData [.ok gmpPage1, .ok gmpPage2] =
      [⟨"BETA", 25, 275⟩] :=
  ⟨gmp_extractor_invariants.2.2.2.1 gmpPage1 [.ok gmpPage2] (by decide), by decide⟩

/-! ## Shape lemmas for the Date Normalizer -/

/-- Exactly the shape `DDDD-DD-DD` (the claim's "ISO `YYYY-MM-DD` string"). -/
def isIsoShape (s : String) : Bool :=
  match s.data with
  | [a, b, c, d, h1, e, f, h2, g, i] =>
    a.isDigit && b.isDigit && c.isDigit && d.isDigit && h1 = '-' &&
    e.isDigit && f.isDigit && h2 = '-' && g.isDigit && i.isDigit
  | _ => false

theorem strData_append (a b : String) : (a ++ b).data = a.data ++ b.data := rfl

theorem dmyTail_facts (cs m y : List Char) (h : dmyTail cs = some (m, y)) :
    y.length = 4 ∧ y.all Char.isDigit = true := by
  simp only [dmyTail] at h
  split at h
  · exact Option.noConfusion h
  split at h
  case isTrue hg =>
    cases Option.some.inj h
    simp only [Bool.and_eq_true, decide_eq_true_eq] at hg
    exact hg
  case isFalse => exact Option.noConfusion h

theorem dmyAt_facts (cs d m y : List Char) (h : dmyAt cs = some (d, m, y)) :
    (d.length = 1 ∨ d.length = 2) ∧ d.all Char.isDigit = true ∧
    y.length = 4 ∧ y.all Char.isDigit = true := by
  cases cs with
  | nil => simp [dmyAt] at h
  | cons c1 tl =>
    cases tl with
    | nil => simp [dmyAt] at h
    | cons c2 rest =>
      simp only [dmyAt] at h
      split at h
      case isTrue h1 =>
        split at h
        case isTrue h2 =>
          split at h
          case h_1 mm yy heq =>
            rcases dmyTail_facts rest mm yy heq with ⟨hy, hyd⟩
            cases Option.some.inj h
            exact ⟨Or.inr rfl, by simp [h1, h2], hy, hyd⟩
          case h_2 heq1 =>
            split at h
            case h_1 mm yy heq =>
              rcases dmyTail_facts (c2 :: rest) mm yy heq with ⟨hy, hyd⟩
              cases Option.some.inj h
              exact ⟨Or.inl rfl, by simp [h1], hy, hyd⟩
            case h_2 => exact Option.noConfusion h
        case isFalse =>
          split at h
          case h_1 mm yy heq =>
            rcases dmyTail_facts (c2 :: rest) mm yy heq with ⟨hy, hyd⟩
            cases Option.some.inj h
            exact ⟨Or.inl rfl, by simp [h1], hy, hyd⟩
          case h_2 => exact Option.noConfusion h
      case isFalse => exact Option.noConfusion h

theorem dmyFirst_facts :
    ∀ (cs d m y : List Char), dmyFirst cs = some (d, m, y) →
      (d.length = 1 ∨ d.length = 2) ∧ d.all Char.isDigit = true ∧
      y.length = 4 ∧ y.all Char.isDigit = true := by
  intro cs
  induction cs with
  | nil => intro d m y h; exact Option.noConfusion h
  | cons c rest ih =>
    intro d m y h
    simp only [dmyFirst] at h
    split at h
    case h_1 r heq =>
      cases Option.some.inj h
      exact dmyAt_facts (c :: rest) d m y heq
    case h_2 => exact ih d m y h

theorem monthLookup_digits (w m : String) (h : monthLookup w = some m) :
    m.data.length = 2 ∧ m.data.all Char.isDigit = true := by
  unfold monthLookup at h
  split at h <;>
    first
    | exact Option.noConfusion h
    | (cases Option.some.inj h; exact ⟨rfl, rfl⟩)

theorem padDay_facts (d : List Char)
    (hd : d.length = 1 ∨ d.length = 2) (hdd : d.all Char.isDigit = true) :
    (padDay d).data.length = 2 ∧ (padDay d).data.all Char.isDigit = true := by
  rcases hd with h1 | h2
  · rw [padDay, if_pos h1]
    refine ⟨by simp [h1], ?_⟩
    simp only [List.all_cons, hdd, Bool.and_true]
    rfl
  · have hne : ¬d.length = 1 := by omega
    rw [padDay, if_neg hne]
    exact ⟨h2, hdd⟩

theorem iso_of_parts (y m d : List Char)
    (hy : y.length = 4) (hyd : y.all Char.isDigit = true)
    (hm : m.length = 2) (hmd : m.all Char.isDigit = true)
    (hd : d.length = 2) (hdd : d.all Char.isDigit = true) :
    hasIso (y ++ ['-'] ++ m ++ ['-'] ++ d) = true := by
  rcases y with _ | ⟨a, _ | ⟨b, _ | ⟨c, _ | ⟨e, _ | _⟩⟩⟩⟩ <;> simp_all
  rcases m with _ | ⟨m1, _ | ⟨m2, _ | _⟩⟩ <;> simp_all
  rcases d with _ | ⟨d1, _ | ⟨d2, _ | _⟩⟩ <;> simp_all [hasIso, isoAt]

/-- Every non-null `parseDate` result contains the `\d{4}-\d{2}-\d{2}`
pattern somewhere inside it (but need not consist of it alone). -/
theorem parseDate_some_hasIso (s r : String) (h : parseDate s = some r) :
    hasIso r.data = true := by
  simp only [parseDate] at h
  split at h
  · exact Option.noConfusion h
  split at h
  case h_1 d mw y hdmy =>
    split at h
    case h_1 mm hmon =>
      cases Option.some.inj h
      rcases dmyFirst_facts _ d mw y hdmy with ⟨hd, hdd, hy, hyd⟩
      rcases monthLookup_digits _ mm hmon with ⟨hm, hmd⟩
      rcases padDay_facts d hd hdd with ⟨hp, hpd⟩
      have he : (String.mk y ++ "-" ++ mm ++ "-" ++ padDay d).data =
          y ++ ['-'] ++ mm.data ++ ['-'] ++ (padDay d).data := by
        simp [strData_append]
      rw [he]
      exact iso_of_parts y mm.data (padDay d).data hy hyd hm hmd hp hpd
    case h_2 =>
      split at h
      case isTrue hiso =>
        cases Option.some.inj h
        exact hiso
      case isFalse => exact Option.noConfusion h
  case h_2 =>
    split at h
    case isTrue hiso =>
      cases Option.some.inj h
      exact hiso
    case isFalse => exact Option.noConfusion h

theorem mk_data (s : String) : String.mk s.data = s := by cases s; rfl

theorem digit_bound_table :
    ∀ n, n < 58 →
      (!(Char.ofNat n).isDigit ||
        (!(Char.ofNat n).isAlpha && !isWs (Char.ofNat n))) = true := by
  decide

theorem digit_toNat_le (c : Char) (h : c.isDigit = true) : c.toNat ≤ 57 := by
  simp only [Char.isDigit, Bool.and_eq_true, decide_eq_true_eq] at h
  simp only [Char.toNat]
  have := @UInt32.toNat_le_of_le c.val 57 (by decide) h.2
  omega

/-- A decimal digit is neither a letter nor whitespace. -/
theorem digit_not_alpha_ws (c : Char) (h : c.isDigit = true) :
    c.isAlpha = false ∧ isWs c = false := by
  have hle := digit_toNat_le c h
  have ht := digit_bound_table c.toNat (by omega)
  rw [Char.ofNat_toNat] at ht
  simp only [h, Bool.not_true, Bool.false_or, Bool.and_eq_true, Bool.not_eq_true'] at ht
  exact ht

theorem dropWhileWs_id (l : List Char) (h : ∀ c ∈ l, isWs c = false) :
    l.dropWhile isWs = l := by
  cases l with
  | nil => rfl
  | cons c r =>
    exact List.dropWhile_cons_of_neg (by simp [h c (List.mem_cons_self c r)])

theorem trimList_id (l : List Char) (h : ∀ c ∈ l, isWs c = false) :
    trimList l = l := by
  unfold trimList
  rw [dropWhileWs_id l h,
    dropWhileWs_id l.reverse (fun c hc => h c (List.mem_reverse.mp hc)),
    List.reverse_reverse]

theorem collapseGo_id (l : List Char) (h : ∀ c ∈ l, isWs c = false) :
    collapseGo false l = l := by
  induction l with
  | nil => rfl
  | cons c r ih =>
    have hc := h c (List.mem_cons_self c r)
    simp only [collapseGo, hc, Bool.false_eq_true, if_false]
    exact congrArg _ (ih (fun x hx => h x (List.mem_cons_of_mem c hx)))

theorem dmyTail_none (cs : List Char) (h : ∀ c ∈ cs, c.isAlpha = false) :
    dmyTail cs = none := by
  have hlet : (cs.dropWhile isWs).takeWhile Char.isAlpha = [] := by
    cases hl : (cs.dropWhile isWs).takeWhile Char.isAlpha with
    | nil => rfl
    | cons x xs =>
      exfalso
      have hx : x ∈ (cs.dropWhile isWs).takeWhile Char.isAlpha := by
        rw [hl]
        exact List.mem_cons_self x xs
      have hpx : Char.isAlpha x = true := List.mem_takeWhile_imp hx
      have hmem : x ∈ cs :=
        List.dropWhile_subset isWs (List.takeWhile_subset Char.isAlpha hx)
      exact absurd hpx (by simp [h x hmem])
  simp [dmyTail, hlet]

theorem dmyAt_none (cs : List Char) (h : ∀ c ∈ cs, c.isAlpha = false) :
    dmyAt cs = none := by
  cases cs with
  | nil => rfl
  | cons c1 tl =>
    cases tl with
    | nil => rfl
    | cons c2 rest =>
      have ht1 : dmyTail rest = none :=
        dmyTail_none rest
          (fun x hx => h x (List.mem_cons_of_mem c1 (List.mem_cons_of_mem c2 hx)))
      have ht2 : dmyTail (c2 :: rest) = none :=
        dmyTail_none (c2 :: rest) (fun x hx => h x (List.mem_cons_of_mem c1 hx))
      simp [dmyAt, ht1, ht2]

theorem dmyFirst_none (l : List Char) (h : ∀ c ∈ l, c.isAlpha = false) :
    dmyFirst l = none := by
  induction l with
  | nil => rfl
  | cons c rest ih =>
    simp only [dmyFirst, dmyAt_none (c :: rest) h]
    exact ih (fun x hx => h x (List.mem_cons_of_mem c hx))

/-- `parseDate` is the identity on inputs that are exactly of the shape
`DDDD-DD-DD`: the day-month-year pattern cannot match (no letters) and the
unanchored ISO pattern matches at the head, so the whole (unchanged) input
is returned. -/
theorem parseDate_iso_id (s : String) (h : isIsoShape s = true) :
    parseDate s = some s := by
  unfold isIsoShape at h
  split at h
  case h_2 => exact absurd h (by simp)
  case h_1 a b c d q1 e f q2 g i heq =>
    simp only [Bool.and_eq_true, decide_eq_true_eq, and_assoc] at h
    obtain ⟨ha, hb, hc, hd, hq1, he, hf, hq2, hg, hi⟩ := h
    subst hq1 hq2
    have hchars : ∀ x ∈ s.data, x.isDigit = true ∨ x = '-' := by
      rw [heq]
      intro x hx
      fin_cases hx <;> first | (left; assumption) | (right; rfl)
    have hnws : ∀ x ∈ s.data, isWs x = false := by
      intro x hx
      rcases hchars x hx with hdig | rfl
      · exact (digit_not_alpha_ws x hdig).2
      · decide
    have hnal : ∀ x ∈ s.data, x.isAlpha = false := by
      intro x hx
      rcases hchars x hx with hdig | rfl
      · exact (digit_not_alpha_ws x hdig).1
      · decide
    have hlen : s.data.length = 10 := by rw [heq]; rfl
    have hne1 : ¬s = "" := by
      intro hcon
      rw [hcon] at hlen
      simp at hlen
    have hne2 : ¬lowerStr s = "tba" := by
      intro hcon
      have hlow : (lowerStr s).data.length = 10 := by simp [lowerStr, hlen]
      rw [hcon] at hlow
      simp at hlow
    have hne3 : ¬s = "-" := by
      intro hcon
      rw [hcon] at hlen
      simp at hlen
    have htrim : jsTrim s = s := by
      unfold jsTrim
      rw [trimList_id _ hnws, mk_data]
    have hcoll : collapseWs s = s := by
      unfold collapseWs
      rw [collapseGo_id _ hnws, mk_data]
    have hdmy : dmyFirst s.data = none := dmyFirst_none _ hnal
    have hiso : hasIso s.data = true := by
      rw [heq]
      simp [hasIso, isoAt, ha, hb, hc, hd, he, hf, hg, hi]
    simp only [parseDate]
    rw [if_neg (by simp [hne1, hne2, hne3])]
    rw [htrim, hcoll]
    simp only [hdmy, hiso, if_true]

/-- Claim C5 counterexample: the ISO fallback pattern of `parseDate` is
unanchored, so an input that merely contains a `YYYY-MM-DD` substring is
returned whole — a non-null result that is not an ISO `YYYY-MM-DD` string. -/
theorem parseDate_counterexample :
    parseDate "on 2024-11-12" = some "on 2024-11-12" ∧
    isIsoShape "on 2024-11-12" = false := by
  refine ⟨by decide, by decide⟩

/-- Claim C5 (amended): `parseDate` is total and returns `none` or a string
containing the `\d{4}-\d{2}-\d{2}` pattern: the empty string, `"tba"`
case-insensitively and `"-"` give `none`; `"12 Nov, 2024"` gives
`"2024-11-12"` (day zero-padded, month from the name table); an input that
is already exactly `YYYY-MM-DD` is returned unchanged; unparseable garble
gives `none`; but a non-null result need not be exactly `YYYY-MM-DD` — an
input merely containing such a substring is returned whole (trimmed and
whitespace-collapsed). -/
theorem parseDate_amended :
    parseDate "" = none ∧
    parseDate "TBA" = none ∧
    parseDate "tba" = none ∧
    parseDate "-" = none ∧
    parseDate "12 Nov, 2024" = some "2024-11-12" ∧
    parseDate "2024-11-12" = some "2024-11-12" ∧
    parseDate "random garble" = none ∧
    (∀ s, isIsoShape s = true → parseDate s = some s) ∧
    (∀ s r, parseDate s = some r → hasIso r.data = true) := by
  refine ⟨by decide, by decide, by decide, by decide, by decide, by decide,
    by decide, parseDate_iso_id, parseDate_some_hasIso⟩

theorem parseDate_amended_witness :
    parseDate "2025-01-31" = some "2025-01-31" ∧
    hasIso ("2024-11-12" : String).data = true :=
  ⟨parseDate_amended.2.2.2.2.2.2.2.1 "2025-01-31" (by decide),
   parseDate_amended.2.2.2.2.2.2.2.2 "2024-11-12" "2024-11-12" (by decide)⟩

end IpoSpec
